import Mathlib

/-!
Verification of the spaced-repetition core of the mini-duolingo repository
(`src/review_strategy.py` and `src/question_generator.py`).

Modelling conventions (shallow embedding):
* Python `float` arithmetic is modelled by exact rationals (`ℚ`); the claims
  under study concern the algebraic structure of the update rules, not IEEE
  rounding.
* Timestamps are rationals measured in days, so `datetime.now() + timedelta(days = d)`
  becomes `now + (d : ℚ)`.
* A CSV row as it is read back from `word_progress.csv` is a `RawRow`; fields
  that a scan has to parse (`next_review`, `mastery_level`) are `Option`-valued,
  `none` standing for a field whose parse (`datetime.fromisoformat` / `float`)
  raises `ValueError`.  The in-memory record that `update_word_progress`
  constructs and persists is a `WordRecord` with parsed fields.
* Code that can raise returns `Except String`; a Python `try/except` that falls
  back to a default is the function `tryD`.
-/

namespace MiniDuolingo

/-- Python's `int()` applied to a rational: truncation toward zero
(`int(-2.6) == -2`, `int(2.6) == 2`). -/
def pyInt (q : ℚ) : ℤ := if 0 ≤ q then ⌊q⌋ else ⌈q⌉

/-- Python `try: e except: d`, for an `Except`-valued embedded expression. -/
def tryD {α : Type} (x : Except String α) (d : α) : α :=
  match x with
  | .ok a => a
  | .error _ => d

/-- Result tuple of `SM2Algorithm.calculate_next_review`:
`(new_easiness_factor, new_interval, new_repetitions, next_review_date)`. -/
structure SM2Result where
  new_easiness_factor : ℚ
  new_interval : ℤ
  new_repetitions : ℤ
  next_review_date : ℚ
deriving DecidableEq, Repr

namespace SM2Algorithm

/-- The constant `SM2Algorithm.MIN_EF = 1.3`. -/
def MIN_EF : ℚ := 13 / 10

/-- Embeds `SM2Algorithm.calculate_next_review(quality, easiness_factor, interval, repetitions)`
from `src/review_strategy.py` lines 25-70.  `now` is the value of
`datetime.now()` at the moment of the call. -/
def calculate_next_review (quality : ℤ) (easiness_factor : ℚ) (interval : ℤ)
    (repetitions : ℤ) (now : ℚ) : SM2Result :=
  let new_easiness_factor :=
    easiness_factor + (1/10 - (5 - (quality : ℚ)) * (2/25 + (5 - (quality : ℚ)) * (1/50)))
  let new_easiness_factor := max new_easiness_factor MIN_EF
  let p : ℤ × ℤ :=
    if quality < 3 then
      (0, 1)
    else
      let new_repetitions := repetitions + 1
      if new_repetitions = 1 then (new_repetitions, 1)
      else if new_repetitions = 2 then (new_repetitions, 6)
      else (new_repetitions, pyInt ((interval : ℚ) * new_easiness_factor))
  { new_easiness_factor := new_easiness_factor
    new_interval := p.2
    new_repetitions := p.1
    next_review_date := now + (p.2 : ℚ) }

/-- Embeds `SM2Algorithm.quality_from_performance(is_correct, time_spent)`,
`src/review_strategy.py` lines 72-98. -/
def quality_from_performance (is_correct : Bool) (time_spent : Option ℚ) : ℤ :=
  if ¬ is_correct then 2
  else
    match time_spent with
    | none => 4
    | some t => if t < 3 then 5 else if t < 10 then 4 else 3

end SM2Algorithm

/-- The in-memory word-progress record built and persisted by
`ReviewStrategy.update_word_progress` (`word_progress.csv` row, parsed). -/
structure WordRecord where
  word : String
  language : String
  total_attempts : ℕ
  correct_attempts : ℕ
  last_review : ℚ
  next_review : ℚ
  ease_factor : ℚ
  interval : ℤ
  mastery_level : ℚ
deriving DecidableEq, Repr

/-- A raw CSV row as seen by the scanning methods.  `next_review` and
`mastery_level` are the parse results of the corresponding text fields:
`none` means the parse (`datetime.fromisoformat` resp. `float`) raises. -/
structure RawRow where
  word : String
  language : String
  next_review : Option ℚ
  mastery_level : Option ℚ
deriving DecidableEq, Repr

namespace ReviewStrategy

/-- Embeds `ReviewStrategy._get_word_data(word, language)`: first row matching the
composite key, `None` if absent (absence represents a never-seen word). -/
def get_word_data (rows : List WordRecord) (word language : String) : Option WordRecord :=
  rows.find? (fun r => r.word == word && r.language == language)

/-- Embeds `ReviewStrategy._save_word_data(word_data)`: replace the first row with the
same `(word, language)` key, append if no row matches. -/
def save_word_data (wd : WordRecord) : List WordRecord → List WordRecord
  | [] => [wd]
  | r :: rest =>
      if r.word == wd.word && r.language == wd.language then wd :: rest
      else r :: save_word_data wd rest

/-- Embeds `ReviewStrategy.update_word_progress(word, language, is_correct, time_spent)`,
`src/review_strategy.py` lines 164-223.  Note that both paths pass
`repetitions = 0` to the scheduler (the new-word path passes the initial 0, the
existing-word path passes the literal `0  # repetitions暂时不存储`). -/
def update_word_progress (rows : List WordRecord) (word language : String)
    (is_correct : Bool) (time_spent : Option ℚ) (now : ℚ) : List WordRecord :=
  match get_word_data rows word language with
  | none =>
      let quality := SM2Algorithm.quality_from_performance is_correct time_spent
      let r := SM2Algorithm.calculate_next_review quality (5/2) 0 0 now
      save_word_data
        { word := word
          language := language
          total_attempts := 1
          correct_attempts := if is_correct then 1 else 0
          last_review := now
          next_review := r.next_review_date
          ease_factor := r.new_easiness_factor
          interval := r.new_interval
          mastery_level := if is_correct then 1 else 0 } rows
  | some wd =>
      let total_attempts := wd.total_attempts + 1
      let correct_attempts := wd.correct_attempts + (if is_correct then 1 else 0)
      let mastery_level : ℚ := (correct_attempts : ℚ) / (total_attempts : ℚ)
      let quality := SM2Algorithm.quality_from_performance is_correct time_spent
      let r := SM2Algorithm.calculate_next_review quality wd.ease_factor wd.interval 0 now
      save_word_data
        { wd with
          total_attempts := total_attempts
          correct_attempts := correct_attempts
          last_review := now
          next_review := r.next_review_date
          ease_factor := r.new_easiness_factor
          interval := r.new_interval
          mastery_level := mastery_level } rows

/-- The scanning loop of `ReviewStrategy.get_words_due_for_review`
(`src/review_strategy.py` lines 144-162): rows of another language are skipped,
rows whose `next_review` fails to parse are skipped by the `except ... continue`,
a due row is appended, and the loop breaks as soon as
`len(words_due) >= limit`. -/
def due_scan (language : String) (now : ℚ) (limit : ℕ) :
    List RawRow → List RawRow → List RawRow
  | [], acc => acc
  | r :: rest, acc =>
      if r.language ≠ language then due_scan language now limit rest acc
      else
        match r.next_review with
        | none => due_scan language now limit rest acc
        | some t =>
            let acc' := if t ≤ now then acc ++ [r] else acc
            if limit ≤ acc'.length then acc' else due_scan language now limit rest acc'

/-- Embeds `ReviewStrategy.get_words_due_for_review(language, limit)`. -/
def get_words_due_for_review (rows : List RawRow) (language : String) (now : ℚ)
    (limit : ℕ) : List RawRow :=
  due_scan language now limit rows []

/-- The `if language and row['language'] != language: continue` filter in
`get_mastery_stats`: `None` (and, by Python truthiness, the empty string)
disables the filter. -/
def language_matches (language : Option String) (row : RawRow) : Bool :=
  match language with
  | none => true
  | some l => if l = "" then true else row.language == l

/-- Python's `round(x, 1)` on a rational: round half to even at one decimal. -/
def round1 (x : ℚ) : ℚ :=
  let y := x * 10
  let f : ℤ := ⌊y⌋
  let r := y - (f : ℚ)
  let n : ℤ :=
    if r < 1/2 then f
    else if 1/2 < r then f + 1
    else if f % 2 = 0 then f else f + 1
  (n : ℚ) / 10

/-- Aggregate result of `ReviewStrategy.get_mastery_stats`. -/
structure MasteryStats where
  total_words : ℕ
  mastered_words : ℕ
  learning_words : ℕ
  average_mastery : ℚ
deriving DecidableEq, Repr

/-- The scanning loop of `ReviewStrategy.get_mastery_stats`
(`src/review_strategy.py` lines 305-318).  The call
`float(row['mastery_level'])` is NOT guarded by a `try`, so an unparseable
`mastery_level` on a language-matching row raises and aborts the scan; this is
modelled by `Except.error`.  Accumulators: total, mastered, learning,
total_mastery. -/
def stats_scan (language : Option String) :
    List RawRow → ℕ → ℕ → ℕ → ℚ → Except String (ℕ × ℕ × ℕ × ℚ)
  | [], t, m, l, tm => .ok (t, m, l, tm)
  | r :: rest, t, m, l, tm =>
      if ¬ language_matches language r then stats_scan language rest t m l tm
      else
        match r.mastery_level with
        | none => .error "ValueError"
        | some ms =>
            if 4/5 ≤ ms then stats_scan language rest (t + 1) (m + 1) l (tm + ms)
            else stats_scan language rest (t + 1) m (l + 1) (tm + ms)

/-- Embeds `ReviewStrategy.get_mastery_stats(language)`, `src/review_strategy.py`
lines 282-327. -/
def get_mastery_stats (rows : List RawRow) (language : Option String) :
    Except String MasteryStats :=
  match stats_scan language rows 0 0 0 0 with
  | .error e => .error e
  | .ok (t, m, l, tm) =>
      .ok { total_words := t
            mastered_words := m
            learning_words := l
            average_mastery := round1 ((if 0 < t then tm / (t : ℚ) else 0) * 100) }

end ReviewStrategy

/-- A question dictionary as produced by the external source, the placeholder
builder or the built-in bank.  Every key a producer may omit is
`Option`-valued; `none` models an absent key. -/
structure RawQuestion where
  type : Option String
  question : Option String
  hint : Option String
  options : Option (List String)
  answer : Option String
  explanation : Option String
  word : Option String
  difficulty : Option ℤ
deriving DecidableEq, Repr, Inhabited

/-- The slice of the user-configuration dictionary the composer reads:
`user_config.get('学习语言', '英语')` and the fields forwarded inside
prompts. -/
structure Config where
  learning_language : Option String
  vocabulary_level : Option String
deriving DecidableEq, Repr

/-- Behaviour of the external AI question source (the `ai_service` module
object), treated as an opaque collaborator.
* `generate_questions` models `AIService.generate_questions`, which catches
  every internal failure and returns `None` (`src/ai_service.py` lines
  127-152) — hence `Option`, never an exception.
* `review_call` models the body of the per-word `try` block of
  `QuestionGenerator._generate_review_questions` (prompt construction, chat
  completion, code-fence stripping and `json.loads`), any of which can raise —
  hence `Except`. -/
structure AIBehavior where
  generate_questions : String → Config → ℕ → Option (List RawQuestion)
  review_call : Config → RawRow → Except String (List RawQuestion)

/-- Environment of one `QuestionGenerator.generate` call.
* `ai_service` is the module-level singleton; `none` models the unavailable
  source (`ai_service is None`).
* `article` is the result of `QuestionGenerator.get_random_article`: `none`
  when the articles directory holds no `.txt` file or the read fails (the
  method catches the read error and returns `None`; the app creates the
  directory at startup, `src/app.py` line 22).
* `shuffle` models `random.shuffle`; theorems assume it permutes its input.
* `store_rows` are the rows of `word_progress.csv`; `now` the current time. -/
structure GenEnv where
  ai_service : Option AIBehavior
  article : Option String
  shuffle : List RawQuestion → List RawQuestion
  store_rows : List RawRow
  now : ℚ

namespace QuestionGenerator

/-- Embeds `QuestionGenerator._validate_question(question)`, `src/question_generator.py`
lines 246-272: the four required keys must be present; a `multiple_choice`
item must further carry exactly 4 options containing the answer. -/
def validate_question (q : RawQuestion) : Bool :=
  q.type.isSome && q.question.isSome && q.answer.isSome && q.word.isSome &&
    (if q.type == some "multiple_choice" then
      match q.options, q.answer with
      | some opts, some a => opts.length == 4 && opts.contains a
      | _, _ => false
    else true)

/-- Embeds `QuestionGenerator._get_default_review_question(word)`,
`src/question_generator.py` lines 225-244. -/
def get_default_review_question (word : String) : RawQuestion :=
  { type := some "multiple_choice"
    question := some ("请复习单词：" ++ word)
    hint := some "这是一个复习题目"
    options := some [word ++ " (正确)", "选项B", "选项C", "选项D"]
    answer := some (word ++ " (正确)")
    explanation := some ("复习单词：" ++ word)
    word := some word
    difficulty := some 3 }

/-- The fixed built-in bank `QuestionGenerator._get_default_questions()`,
`src/question_generator.py` lines 274-425: 15 questions (8 multiple choice,
7 fill-in-the-blank). -/
def default_questions : List RawQuestion :=
  [ { type := some "multiple_choice"
      question := some "请选择 \"happy\" 的中文释义"
      hint := some "这是一个常用的形容词"
      options := some ["悲伤的", "快乐的", "愤怒的", "疲惫的"]
      answer := some "快乐的"
      explanation := some "Happy是一个常用的英语单词，意思是\"快乐的、幸福的\"。"
      word := some "happy"
      difficulty := some 3 },
    { type := some "multiple_choice"
      question := some "请选择 \"beautiful\" 的中文释义"
      hint := some "用来形容美好事物的形容词"
      options := some ["丑陋的", "美丽的", "普通的", "奇怪的"]
      answer := some "美丽的"
      explanation := some "Beautiful意为\"美丽的、漂亮的\"。"
      word := some "beautiful"
      difficulty := some 4 },
    { type := some "fill_blank"
      question := some "完成句子：I am very _____ today."
      hint := some "填写一个表示\"开心\"的单词"
      options := none
      answer := some "happy"
      explanation := some "这句话的意思是\"我今天很开心\"。"
      word := some "happy"
      difficulty := some 3 },
    { type := some "multiple_choice"
      question := some "请选择 \"run\" 的中文释义"
      hint := some "这是一个动作动词"
      options := some ["走", "跑", "跳", "飞"]
      answer := some "跑"
      explanation := some "Run是一个常用的动词，意思是\"跑、奔跑\"。"
      word := some "run"
      difficulty := some 2 },
    { type := some "fill_blank"
      question := some "完成句子：She likes to _____ in the park."
      hint := some "填写一个表示\"跑步\"的单词"
      options := none
      answer := some "run"
      explanation := some "这句话的意思是\"她喜欢在公园里跑步\"。"
      word := some "run"
      difficulty := some 2 },
    { type := some "multiple_choice"
      question := some "请选择 \"book\" 的中文释义"
      hint := some "这是一个常用的名词"
      options := some ["书", "笔", "桌子", "椅子"]
      answer := some "书"
      explanation := some "Book意为\"书、书籍\"。"
      word := some "book"
      difficulty := some 1 },
    { type := some "fill_blank"
      question := some "完成句子：This is a good _____."
      hint := some "填写一个表示\"书\"的单词"
      options := none
      answer := some "book"
      explanation := some "这句话的意思是\"这是一本好书\"。"
      word := some "book"
      difficulty := some 1 },
    { type := some "multiple_choice"
      question := some "请选择 \"eat\" 的中文释义"
      hint := some "这是一个日常动作"
      options := some ["喝", "吃", "睡", "玩"]
      answer := some "吃"
      explanation := some "Eat是一个基本动词，意思是\"吃\"。"
      word := some "eat"
      difficulty := some 1 },
    { type := some "fill_blank"
      question := some "完成句子：Let\x27s _____ dinner together."
      hint := some "填写一个表示\"吃\"的单词"
      options := none
      answer := some "eat"
      explanation := some "这句话的意思是\"让我们一起吃晚餐吧\"。"
      word := some "eat"
      difficulty := some 1 },
    { type := some "multiple_choice"
      question := some "请选择 \"sleep\" 的中文释义"
      hint := some "每个人每天都要做的事情"
      options := some ["工作", "睡觉", "运动", "学习"]
      answer := some "睡觉"
      explanation := some "Sleep意为\"睡觉\"。"
      word := some "sleep"
      difficulty := some 1 },
    { type := some "fill_blank"
      question := some "完成句子：I need to _____ now."
      hint := some "填写一个表示\"睡觉\"的单词"
      options := none
      answer := some "sleep"
      explanation := some "这句话的意思是\"我现在需要睡觉\"。"
      word := some "sleep"
      difficulty := some 1 },
    { type := some "multiple_choice"
      question := some "请选择 \"write\" 的中文释义"
      hint := some "与笔有关"
      options := some ["读", "写", "看", "听"]
      answer := some "写"
      explanation := some "Write意为\"写、书写\"。"
      word := some "write"
      difficulty := some 2 },
    { type := some "fill_blank"
      question := some "完成句子：Please _____ your name here."
      hint := some "填写一个表示\"写\"的单词"
      options := none
      answer := some "write"
      explanation := some "这句话的意思是\"请在这里写下你的名字\"。"
      word := some "write"
      difficulty := some 2 },
    { type := some "multiple_choice"
      question := some "请选择 \"speak\" 的中文释义"
      hint := some "与嘴巴有关"
      options := some ["听", "说", "读", "写"]
      answer := some "说"
      explanation := some "Speak意为\"说、说话\"。"
      word := some "speak"
      difficulty := some 2 },
    { type := some "fill_blank"
      question := some "完成句子：Can you _____ English?"
      hint := some "填写一个表示\"说\"的单词"
      options := none
      answer := some "speak"
      explanation := some "这句话的意思是\"你会说英语吗？\"。"
      word := some "speak"
      difficulty := some 2 } ]

/-- The body of the per-word `try` block of `_generate_review_questions`:
building the prompt evaluates `float(word_data['mastery_level'])`, which
raises on an unparseable field; otherwise the external call itself runs and
may fail. -/
def review_attempt (ai : AIBehavior) (cfg : Config) (word_data : RawRow) :
    Except String (List RawQuestion) :=
  match word_data.mastery_level with
  | none => .error "ValueError"
  | some _ => ai.review_call cfg word_data

/-- Embeds `QuestionGenerator._generate_review_questions(words_due, user_config)`,
`src/question_generator.py` lines 97-173: per due word, try the external
generation and keep the items passing the validation gate; on any exception
append exactly one deterministic placeholder for that word. -/
def generate_review_questions (ai : AIBehavior) (cfg : Config)
    (words_due : List RawRow) : List RawQuestion :=
  match words_due with
  | [] => []
  | wd :: rest =>
      (match review_attempt ai cfg wd with
       | .ok qs => qs.filter validate_question
       | .error _ => [get_default_review_question wd.word]) ++
        generate_review_questions ai cfg rest

/-- Embeds `QuestionGenerator._generate_new_questions(user_config, count)`,
`src/question_generator.py` lines 175-223.  An absent or empty article, an
unavailable AI service, a failed generation (`None`) or an empty batch all
degrade to the built-in bank; a non-empty batch is validated item by item and
padded from the bank if too short. -/
def generate_new_questions (env : GenEnv) (cfg : Config) (count : ℕ) :
    List RawQuestion :=
  match env.article with
  | none => default_questions.take count
  | some content =>
      if content = "" then default_questions.take count
      else
        match env.ai_service with
        | none => default_questions.take count
        | some ai =>
            match ai.generate_questions content cfg count with
            | none => default_questions.take count
            | some qs =>
                if qs.length > 0 then
                  let validated := qs.filter validate_question
                  let padded :=
                    if validated.length < count then
                      validated ++ default_questions.take (count - validated.length)
                    else validated
                  padded.take count
                else default_questions.take count

/-- Step 2 of `QuestionGenerator.generate`: the guard
`if review_count > 0 and ai_service is not None` around
`_generate_review_questions` (`src/question_generator.py` lines 74-77) —
review questions are produced only when there are due words AND the AI
service singleton is available. -/
def review_part (aiopt : Option AIBehavior) (cfg : Config)
    (words_due : List RawRow) : List RawQuestion :=
  match aiopt with
  | some ai =>
      if 0 < words_due.length then generate_review_questions ai cfg words_due else []
  | none => []

/-- Embeds `QuestionGenerator.generate(user_config, count)`, `src/question_generator.py`
lines 49-95: pull at most 5 due words, generate review questions for them only
when the AI service is available, top up with new questions, shuffle, pad from
the built-in bank, truncate to `count`. -/
def generate (env : GenEnv) (cfg : Config) (count : ℕ) : List RawQuestion :=
  let language := cfg.learning_language.getD "英语"
  let words_due := ReviewStrategy.get_words_due_for_review env.store_rows language env.now 5
  let all₁ : List RawQuestion := review_part env.ai_service cfg words_due
  let new_count := count - all₁.length
  let all₂ := if 0 < new_count then all₁ ++ generate_new_questions env cfg new_count else all₁
  let shuffled := env.shuffle all₂
  let padded :=
    if shuffled.length < count then
      shuffled ++ default_questions.take (count - shuffled.length)
    else shuffled
  padded.take count

end QuestionGenerator

/-! ## Specification-side definitions -/

/-- The SM-2 update rule exactly as the specification words it (claim C1):
identical in structure to the code, except that the multiplicative branch is
described as the mathematical floor of `interval * new_ease_factor`. -/
def calculate_next_review_spec (quality : ℤ) (ease_factor : ℚ) (interval : ℤ)
    (repetitions : ℤ) (now : ℚ) : SM2Result :=
  let new_ease_factor :=
    max (13/10)
      (ease_factor + (1/10 - (5 - (quality : ℚ)) * (2/25 + (5 - (quality : ℚ)) * (1/50))))
  let new_repetitions : ℤ := if quality < 3 then 0 else repetitions + 1
  let new_interval : ℤ :=
    if quality < 3 then 1
    else if new_repetitions = 1 then 1
    else if new_repetitions = 2 then 6
    else ⌊(interval : ℚ) * new_ease_factor⌋
  { new_easiness_factor := new_ease_factor
    new_interval := new_interval
    new_repetitions := new_repetitions
    next_review_date := now + (new_interval : ℚ) }

/-- Feeding a list of answer events `(is_correct, time_spent, now)` for one
word through `update_word_progress`, in submission order. -/
def apply_answers (rows : List WordRecord) (word language : String)
    (answers : List (Bool × Option ℚ × ℚ)) : List WordRecord :=
  answers.foldl
    (fun st a => ReviewStrategy.update_word_progress st word language a.1 a.2.1 a.2.2) rows

/-- Number of correct answers among a list of answer events. -/
def count_correct (answers : List (Bool × Option ℚ × ℚ)) : ℕ :=
  (answers.filter (fun a => a.1)).length

/-- A configuration with no language set (the composer then defaults the
language to `"英语"`). -/
def cfg0 : Config := { learning_language := none, vocabulary_level := none }

/-- Concrete environment: unavailable AI service, no article, empty store,
identity shuffle. -/
def env0 : GenEnv :=
  { ai_service := none, article := none, shuffle := id, store_rows := [], now := 0 }

/-- A well-formed store row for the word "cat", due at time 0. -/
def rowCat : RawRow :=
  { word := "cat", language := "英语", next_review := some 0, mastery_level := some 0 }

/-- Concrete environment holding one due word ("cat") but no AI service. -/
def envCat : GenEnv :=
  { ai_service := none, article := none, shuffle := id, store_rows := [rowCat], now := 1 }

/-- An AI service whose per-word review call always raises. -/
def failing_ai : AIBehavior :=
  { generate_questions := fun _ _ _ => none
    review_call := fun _ _ => .error "timeout" }

/-- A well-formed store row for the word "dog", due at time 0. -/
def rowDog : RawRow :=
  { word := "dog", language := "英语", next_review := some 0, mastery_level := some 0 }

/-- An AI service whose per-word review call fails for "cat" but succeeds,
with one valid question, for every other word: a mixed session. -/
def mixed_ai : AIBehavior :=
  { generate_questions := fun _ _ _ => none
    review_call := fun _ wd =>
      if wd.word = "cat" then .error "timeout"
      else .ok [QuestionGenerator.get_default_review_question wd.word] }

/-- The single question composed by `generate` for `env0` at count 1. -/
def q0 : RawQuestion := (QuestionGenerator.generate env0 cfg0 1).headI

/-! ## Scheduler theorems -/

/-- The ease-factor part of the scheduler result is bounded below by the
`max` with `MIN_EF`, whatever the inputs. -/
theorem sm2_ef_ge_min (quality : ℤ) (ease_factor : ℚ) (interval repetitions : ℤ)
    (now : ℚ) :
    SM2Algorithm.MIN_EF ≤
      (SM2Algorithm.calculate_next_review quality ease_factor interval repetitions now).new_easiness_factor := by
  simp only [SM2Algorithm.calculate_next_review]
  exact le_max_right _ _

/-- C3: for every quality in 0–5 and every starting ease_factor at least 1.3,
the new ease factor returned by `calculate_next_review` is at least 1.3
(the `max(1.3, ·)` floor). -/
theorem new_ease_factor_ge_min (quality : ℤ) (ease_factor : ℚ)
    (interval repetitions : ℤ) (now : ℚ)
    (h0 : 0 ≤ quality) (h5 : quality ≤ 5) (hef : 13/10 ≤ ease_factor) :
    13/10 ≤
      (SM2Algorithm.calculate_next_review quality ease_factor interval repetitions now).new_easiness_factor :=
  sm2_ef_ge_min quality ease_factor interval repetitions now

/-- Witness for `new_ease_factor_ge_min` at quality 0, ease_factor 1.3. -/
theorem new_ease_factor_ge_min_witness :
    13/10 ≤ (SM2Algorithm.calculate_next_review 0 (13/10) 4 2 0).new_easiness_factor :=
  new_ease_factor_ge_min 0 (13/10) 4 2 0 (by decide)
    (by decide) (by norm_num)

/-- C1 (amended): for nonnegative stored intervals the scheduler agrees with
the specification's branch rule, floor included; `int()` truncation and the
floor coincide there because the product `interval * new_ease_factor` is
nonnegative. -/
theorem sm2_branch_rule_of_nonneg_interval (quality : ℤ) (ease_factor : ℚ)
    (interval repetitions : ℤ) (now : ℚ) (h : 0 ≤ interval) :
    SM2Algorithm.calculate_next_review quality ease_factor interval repetitions now =
      calculate_next_review_spec quality ease_factor interval repetitions now := by
  have hnef : (0 : ℚ) ≤ (interval : ℚ) *
      max (ease_factor + (1/10 - (5 - (quality : ℚ)) * (2/25 + (5 - (quality : ℚ)) * (1/50))))
        SM2Algorithm.MIN_EF := by
    apply mul_nonneg
    · exact_mod_cast h
    · calc (0 : ℚ) ≤ 13/10 := by norm_num
        _ = SM2Algorithm.MIN_EF := rfl
        _ ≤ _ := le_max_right _ _
  simp only [SM2Algorithm.calculate_next_review, calculate_next_review_spec, pyInt,
    SM2Algorithm.MIN_EF, max_comm] at *
  split_ifs <;> simp_all

/-- Witness for `sm2_branch_rule_of_nonneg_interval`: third consecutive
success at interval 6. -/
theorem sm2_branch_rule_witness :
    SM2Algorithm.calculate_next_review 4 (5/2) 6 2 0 =
      calculate_next_review_spec 4 (5/2) 6 2 0 :=
  sm2_branch_rule_of_nonneg_interval 4 (5/2) 6 2 0 (by decide)

/-- C1 counterexample: at `quality = 5`, `ease_factor = 2.5`, `interval = -1`,
`repetitions = 2`, the code truncates `-1 * 2.6 = -2.6` toward zero to `-2`,
while the claim's floor gives `-3`; the two results differ. -/
theorem sm2_floor_counterexample :
    SM2Algorithm.calculate_next_review 5 (5/2) (-1) 2 0 ≠
      calculate_next_review_spec 5 (5/2) (-1) 2 0 := by
  have h1 : (SM2Algorithm.calculate_next_review 5 (5/2) (-1) 2 0).new_interval = -2 := by
    norm_num [SM2Algorithm.calculate_next_review, SM2Algorithm.MIN_EF, pyInt, max_def,
      Int.ceil_eq_iff]
  have h2 : (calculate_next_review_spec 5 (5/2) (-1) 2 0).new_interval = -3 := by
    norm_num [calculate_next_review_spec, max_def, Int.floor_eq_iff]
  intro h
  rw [h, h2] at h1
  exact absurd h1 (by decide)

/-! ## Store update theorems -/

/-- A record found by `_get_word_data` carries the key it was looked up by. -/
theorem get_word_data_key {rows : List WordRecord} {w l : String} {rec : WordRecord}
    (h : ReviewStrategy.get_word_data rows w l = some rec) :
    rec.word = w ∧ rec.language = l := by
  have hp := List.find?_some h
  simpa using hp

/-- Reading back a record just saved by `_save_word_data` under its own key
returns exactly that record. -/
theorem get_save_word_data (wd : WordRecord) (rows : List WordRecord) :
    ReviewStrategy.get_word_data (ReviewStrategy.save_word_data wd rows)
      wd.word wd.language = some wd := by
  induction rows with
  | nil => simp [ReviewStrategy.get_word_data, ReviewStrategy.save_word_data]
  | cons r rest ih =>
      by_cases h : (r.word == wd.word && r.language == wd.language) = true
      · simp [ReviewStrategy.save_word_data, h, ReviewStrategy.get_word_data]
      · simp only [ReviewStrategy.save_word_data, h, if_false]
        simpa [ReviewStrategy.get_word_data, h] using ih

/-- With `repetitions = 0` the scheduler lands in the reset branch or the
first-success branch, both of which yield interval 1 and a due date one day
out. -/
theorem sm2_reps_zero (quality : ℤ) (ease_factor : ℚ) (interval : ℤ) (now : ℚ) :
    (SM2Algorithm.calculate_next_review quality ease_factor interval 0 now).new_interval = 1 ∧
      (SM2Algorithm.calculate_next_review quality ease_factor interval 0 now).next_review_date =
        now + 1 := by
  simp only [SM2Algorithm.calculate_next_review]
  split_ifs <;> simp_all

/-- C2: every `update_word_progress` call — new or existing word, correct or
not, any time spent — persists a record with interval 1 whose `next_review`
is exactly one day after the update, because both code paths pass
`repetitions = 0` to the scheduler; the 6-day and multiplicative branches are
unreachable through this path. -/
theorem update_word_progress_interval_one (rows : List WordRecord)
    (word language : String) (is_correct : Bool) (time_spent : Option ℚ) (now : ℚ) :
    ∃ rec,
      ReviewStrategy.get_word_data
          (ReviewStrategy.update_word_progress rows word language is_correct time_spent now)
          word language = some rec ∧
        rec.interval = 1 ∧ rec.next_review = now + 1 := by
  unfold ReviewStrategy.update_word_progress
  cases hget : ReviewStrategy.get_word_data rows word language with
  | none =>
      refine ⟨_, get_save_word_data _ rows, ?_, ?_⟩
      · exact (sm2_reps_zero
          (SM2Algorithm.quality_from_performance is_correct time_spent) (5/2) 0 now).1
      · exact (sm2_reps_zero
          (SM2Algorithm.quality_from_performance is_correct time_spent) (5/2) 0 now).2
  | some wd =>
      obtain ⟨hw, hl⟩ := get_word_data_key hget
      subst hw; subst hl
      refine ⟨_, get_save_word_data _ rows, ?_, ?_⟩
      · exact (sm2_reps_zero
          (SM2Algorithm.quality_from_performance is_correct time_spent)
          wd.ease_factor wd.interval now).1
      · exact (sm2_reps_zero
          (SM2Algorithm.quality_from_performance is_correct time_spent)
          wd.ease_factor wd.interval now).2

/-- One `update_word_progress` call on an existing record increments
`total_attempts`, adds the correctness bit to `correct_attempts`, and
recomputes `mastery_level` as the exact ratio of the new counters. -/
theorem update_existing_spec (rows : List WordRecord) {w l : String} {rec : WordRecord}
    (hget : ReviewStrategy.get_word_data rows w l = some rec)
    (is_correct : Bool) (time_spent : Option ℚ) (now : ℚ) :
    ∃ rec',
      ReviewStrategy.get_word_data
          (ReviewStrategy.update_word_progress rows w l is_correct time_spent now) w l =
        some rec' ∧
      rec'.total_attempts = rec.total_attempts + 1 ∧
      rec'.correct_attempts = rec.correct_attempts + (if is_correct then 1 else 0) ∧
      rec'.mastery_level = (rec'.correct_attempts : ℚ) / (rec'.total_attempts : ℚ) := by
  obtain ⟨hw, hl⟩ := get_word_data_key hget
  subst hw; subst hl
  unfold ReviewStrategy.update_word_progress
  rw [hget]
  exact ⟨_, get_save_word_data _ rows, rfl, rfl, rfl⟩

/-- One `update_word_progress` call on an absent record creates it with
`total_attempts = 1`, the correctness bit, and a consistent mastery ratio. -/
theorem update_new_spec (rows : List WordRecord) {w l : String}
    (hget : ReviewStrategy.get_word_data rows w l = none)
    (is_correct : Bool) (time_spent : Option ℚ) (now : ℚ) :
    ∃ rec',
      ReviewStrategy.get_word_data
          (ReviewStrategy.update_word_progress rows w l is_correct time_spent now) w l =
        some rec' ∧
      rec'.total_attempts = 1 ∧
      rec'.correct_attempts = (if is_correct then 1 else 0) ∧
      rec'.mastery_level = (rec'.correct_attempts : ℚ) / (rec'.total_attempts : ℚ) := by
  unfold ReviewStrategy.update_word_progress
  rw [hget]
  refine ⟨_, get_save_word_data _ rows, rfl, rfl, ?_⟩
  cases is_correct <;> norm_num

/-- Counting correct answers, cons case. -/
theorem count_correct_cons (a : Bool × Option ℚ × ℚ)
    (rest : List (Bool × Option ℚ × ℚ)) :
    count_correct (a :: rest) = (if a.1 then 1 else 0) + count_correct rest := by
  by_cases h : a.1 <;> simp [count_correct, List.filter_cons, h] <;> omega

/-- Running a sequence of answers against a store already holding a record
for the key accumulates the counters and, when the sequence is nonempty,
leaves the mastery ratio consistent with them. -/
theorem apply_answers_existing {w l : String} :
    ∀ (answers : List (Bool × Option ℚ × ℚ)) (rows : List WordRecord) (rec : WordRecord),
      ReviewStrategy.get_word_data rows w l = some rec →
      ∃ rec',
        ReviewStrategy.get_word_data (apply_answers rows w l answers) w l = some rec' ∧
        rec'.total_attempts = rec.total_attempts + answers.length ∧
        rec'.correct_attempts = rec.correct_attempts + count_correct answers ∧
        (answers = [] → rec' = rec) ∧
        (answers ≠ [] →
          rec'.mastery_level = (rec'.correct_attempts : ℚ) / (rec'.total_attempts : ℚ))
  | [], rows, rec, hget =>
      ⟨rec, by simpa [apply_answers] using hget, by simp, by simp [count_correct],
        fun _ => rfl, by simp⟩
  | a :: rest, rows, rec, hget => by
      obtain ⟨rec₁, hget₁, ht₁, hc₁, hm₁⟩ :=
        update_existing_spec rows hget a.1 a.2.1 a.2.2
      obtain ⟨rec', hget', ht', hc', hnil, hm'⟩ :=
        apply_answers_existing rest _ rec₁ hget₁
      refine ⟨rec', ?_, ?_, ?_, ?_, ?_⟩
      · simpa [apply_answers] using hget'
      · rw [ht', ht₁]; simp; omega
      · rw [hc', hc₁, count_correct_cons]; omega
      · intro h; exact absurd h (by simp)
      · intro _
        by_cases hr : rest = []
        · subst hr
          rw [hnil rfl]
          exact hm₁
        · exact hm' hr

/-- C9: starting from a store holding no record for the key (absence, not a
zero record, represents a never-seen word), any nonempty sequence of N
answers of which K are correct leaves a persisted record with
`total_attempts = N > 0`, `correct_attempts = K` and `mastery_level = K / N`
exactly. -/
theorem mastery_level_invariant (rows : List WordRecord) (word language : String)
    (answers : List (Bool × Option ℚ × ℚ))
    (hne : answers ≠ [])
    (habs : ReviewStrategy.get_word_data rows word language = none) :
    ∃ rec,
      ReviewStrategy.get_word_data (apply_answers rows word language answers)
          word language = some rec ∧
      rec.total_attempts = answers.length ∧
      rec.correct_attempts = count_correct answers ∧
      0 < rec.total_attempts ∧
      rec.mastery_level = (rec.correct_attempts : ℚ) / (rec.total_attempts : ℚ) := by
  cases answers with
  | nil => exact absurd rfl hne
  | cons a rest =>
      obtain ⟨rec₀, hget₀, ht₀, hc₀, hm₀⟩ := update_new_spec rows habs a.1 a.2.1 a.2.2
      obtain ⟨rec', hget', ht', hc', hnil, hm'⟩ :=
        apply_answers_existing rest _ rec₀ hget₀
      refine ⟨rec', ?_, ?_, ?_, ?_, ?_⟩
      · simpa [apply_answers] using hget'
      · rw [ht', ht₀]; simp; omega
      · rw [hc', hc₀, count_correct_cons]
      · rw [ht', ht₀]; omega
      · by_cases hr : rest = []
        · subst hr
          rw [hnil rfl]
          exact hm₀
        · exact hm' hr

/-- Witness for `mastery_level_invariant`: two answers, one correct, give a
record with mastery 1/2. -/
theorem mastery_level_invariant_witness :
    ∃ rec,
      ReviewStrategy.get_word_data
          (apply_answers [] "cat" "en" [(true, none, 0), (false, none, 1)])
          "cat" "en" = some rec ∧
      rec.total_attempts = ([(true, none, 0), (false, none, 1)] : List (Bool × Option ℚ × ℚ)).length ∧
      rec.correct_attempts = count_correct [(true, none, 0), (false, none, 1)] ∧
      0 < rec.total_attempts ∧
      rec.mastery_level = (rec.correct_attempts : ℚ) / (rec.total_attempts : ℚ) :=
  mastery_level_invariant [] "cat" "en" [(true, none, 0), (false, none, 1)]
    (by simp) rfl

/-! ## Due-word scan theorems -/

/-- Unfolding the due scan past a row of another language. -/
theorem due_scan_cons_other_lang {r : RawRow} {language : String}
    (h : r.language ≠ language) (now : ℚ) (limit : ℕ) (rest acc : List RawRow) :
    ReviewStrategy.due_scan language now limit (r :: rest) acc =
      ReviewStrategy.due_scan language now limit rest acc := by
  rw [ReviewStrategy.due_scan, if_pos h]

/-- Unfolding the due scan past a row whose due date fails to parse. -/
theorem due_scan_cons_bad_parse {r : RawRow} {language : String}
    (h : ¬ r.language ≠ language) (hnr : r.next_review = none)
    (now : ℚ) (limit : ℕ) (rest acc : List RawRow) :
    ReviewStrategy.due_scan language now limit (r :: rest) acc =
      ReviewStrategy.due_scan language now limit rest acc := by
  rw [ReviewStrategy.due_scan, if_neg h, hnr]

/-- Unfolding the due scan at a language-matching, due row: append it, then
break if the limit is reached. -/
theorem due_scan_cons_due {r : RawRow} {language : String} {t now : ℚ}
    (h : ¬ r.language ≠ language) (hnr : r.next_review = some t) (hd : t ≤ now)
    (limit : ℕ) (rest acc : List RawRow) :
    ReviewStrategy.due_scan language now limit (r :: rest) acc =
      if limit ≤ (acc ++ [r]).length then acc ++ [r]
      else ReviewStrategy.due_scan language now limit rest (acc ++ [r]) := by
  rw [ReviewStrategy.due_scan, if_neg h, hnr]
  simp [hd]

/-- Unfolding the due scan at a language-matching row that is not yet due. -/
theorem due_scan_cons_not_due {r : RawRow} {language : String} {t now : ℚ}
    (h : ¬ r.language ≠ language) (hnr : r.next_review = some t) (hd : ¬ t ≤ now)
    (limit : ℕ) (rest acc : List RawRow) :
    ReviewStrategy.due_scan language now limit (r :: rest) acc =
      if limit ≤ acc.length then acc
      else ReviewStrategy.due_scan language now limit rest acc := by
  rw [ReviewStrategy.due_scan, if_neg h, hnr]
  simp [hd]

/-- Entered with room below `limit`, the due scan never returns more than
`limit` rows: it breaks as soon as the accumulator reaches `limit`. -/
theorem due_scan_length_le (language : String) (now : ℚ) (limit : ℕ) :
    ∀ (rows acc : List RawRow), acc.length < limit →
      (ReviewStrategy.due_scan language now limit rows acc).length ≤ limit := by
  intro rows
  induction rows with
  | nil => intro acc h; rw [ReviewStrategy.due_scan]; exact h.le
  | cons r rest ih =>
      intro acc h
      by_cases h1 : r.language ≠ language
      · rw [due_scan_cons_other_lang h1]; exact ih acc h
      · cases hnr : r.next_review with
        | none => rw [due_scan_cons_bad_parse h1 hnr]; exact ih acc h
        | some t =>
            by_cases hd : t ≤ now
            · rw [due_scan_cons_due h1 hnr hd]
              have hlen : (acc ++ [r]).length = acc.length + 1 := by simp
              by_cases hl : limit ≤ (acc ++ [r]).length
              · rw [if_pos hl]; omega
              · rw [if_neg hl]
                exact ih (acc ++ [r]) (by omega)
            · rw [due_scan_cons_not_due h1 hnr hd]
              by_cases hl : limit ≤ acc.length
              · rw [if_pos hl]; omega
              · rw [if_neg hl]; exact ih acc h

/-- Every row the due scan returns either was already accumulated or matches
the requested language and has a parseable due date not after `now`. -/
theorem due_scan_mem (language : String) (now : ℚ) (limit : ℕ) :
    ∀ (rows acc : List RawRow) (x : RawRow),
      x ∈ ReviewStrategy.due_scan language now limit rows acc →
      x ∈ acc ∨ (x.language = language ∧ ∃ t, x.next_review = some t ∧ t ≤ now) := by
  intro rows
  induction rows with
  | nil => intro acc x hx; rw [ReviewStrategy.due_scan] at hx; exact Or.inl hx
  | cons r rest ih =>
      intro acc x hx
      by_cases h1 : r.language ≠ language
      · rw [due_scan_cons_other_lang h1] at hx; exact ih acc x hx
      · cases hnr : r.next_review with
        | none => rw [due_scan_cons_bad_parse h1 hnr] at hx; exact ih acc x hx
        | some t =>
            have hr : r.language = language := not_not.mp h1
            by_cases hd : t ≤ now
            · rw [due_scan_cons_due h1 hnr hd] at hx
              have hstep : x ∈ acc ++ [r] →
                  x ∈ acc ∨ (x.language = language ∧ ∃ u, x.next_review = some u ∧ u ≤ now) := by
                intro hxa
                rcases List.mem_append.mp hxa with hxa' | hxr
                · exact Or.inl hxa'
                · have hxe : x = r := by simpa using hxr
                  subst hxe
                  exact Or.inr ⟨hr, t, hnr, hd⟩
              by_cases hl : limit ≤ (acc ++ [r]).length
              · rw [if_pos hl] at hx
                exact hstep hx
              · rw [if_neg hl] at hx
                rcases ih (acc ++ [r]) x hx with hxa | hprop
                · exact hstep hxa
                · exact Or.inr hprop
            · rw [due_scan_cons_not_due h1 hnr hd] at hx
              by_cases hl : limit ≤ acc.length
              · rw [if_pos hl] at hx; exact Or.inl hx
              · rw [if_neg hl] at hx; exact ih acc x hx

/-- The due scan appends, to its accumulator, a subsequence of the remaining
rows in their natural read order (it performs no sort). -/
theorem due_scan_sublist (language : String) (now : ℚ) (limit : ℕ) :
    ∀ (rows acc : List RawRow),
      ∃ s, s.Sublist rows ∧
        ReviewStrategy.due_scan language now limit rows acc = acc ++ s := by
  intro rows
  induction rows with
  | nil =>
      intro acc
      exact ⟨[], List.Sublist.refl [], by rw [ReviewStrategy.due_scan]; simp⟩
  | cons r rest ih =>
      intro acc
      by_cases h1 : r.language ≠ language
      · obtain ⟨s, hs, he⟩ := ih acc
        exact ⟨s, hs.cons r, by rw [due_scan_cons_other_lang h1, he]⟩
      · cases hnr : r.next_review with
        | none =>
            obtain ⟨s, hs, he⟩ := ih acc
            exact ⟨s, hs.cons r, by rw [due_scan_cons_bad_parse h1 hnr, he]⟩
        | some t =>
            by_cases hd : t ≤ now
            · by_cases hl : limit ≤ (acc ++ [r]).length
              · exact ⟨[r], by simp,
                  by rw [due_scan_cons_due h1 hnr hd, if_pos hl]⟩
              · obtain ⟨s, hs, he⟩ := ih (acc ++ [r])
                refine ⟨r :: s, List.Sublist.cons₂ r hs, ?_⟩
                rw [due_scan_cons_due h1 hnr hd, if_neg hl, he]
                simp
            · by_cases hl : limit ≤ acc.length
              · exact ⟨[], by simp,
                  by rw [due_scan_cons_not_due h1 hnr hd, if_pos hl]; simp⟩
              · obtain ⟨s, hs, he⟩ := ih acc
                exact ⟨s, hs.cons r,
                  by rw [due_scan_cons_not_due h1 hnr hd, if_neg hl, he]⟩

/-- A row whose `next_review` text fails to parse is invisible to the
due-word scan: the `except (ValueError, KeyError): continue` removes it
without touching the accumulator or the limit check. -/
theorem due_scan_skips_malformed (language : String) (now : ℚ) (limit : ℕ)
    {r : RawRow} (hr : r.next_review = none) :
    ∀ (l₁ l₂ acc : List RawRow),
      ReviewStrategy.due_scan language now limit (l₁ ++ r :: l₂) acc =
        ReviewStrategy.due_scan language now limit (l₁ ++ l₂) acc := by
  intro l₁
  induction l₁ with
  | nil =>
      intro l₂ acc
      simp only [List.nil_append]
      by_cases h1 : r.language ≠ language
      · rw [due_scan_cons_other_lang h1]
      · rw [due_scan_cons_bad_parse h1 hr]
  | cons a l₁' ih =>
      intro l₂ acc
      simp only [List.cons_append]
      by_cases h1 : a.language ≠ language
      · rw [due_scan_cons_other_lang h1, due_scan_cons_other_lang h1]
        exact ih l₂ acc
      · cases hnr : a.next_review with
        | none =>
            rw [due_scan_cons_bad_parse h1 hnr, due_scan_cons_bad_parse h1 hnr]
            exact ih l₂ acc
        | some t =>
            by_cases hd : t ≤ now
            · rw [due_scan_cons_due h1 hnr hd, due_scan_cons_due h1 hnr hd]
              by_cases hl : limit ≤ (acc ++ [a]).length
              · rw [if_pos hl, if_pos hl]
              · rw [if_neg hl, if_neg hl]
                exact ih l₂ (acc ++ [a])
            · rw [due_scan_cons_not_due h1 hnr hd, due_scan_cons_not_due h1 hnr hd]
              by_cases hl : limit ≤ acc.length
              · rw [if_pos hl, if_pos hl]
              · rw [if_neg hl, if_neg hl]
                exact ih l₂ acc

/-- The stats scan completes without raising as long as every
language-matching row has a parseable `mastery_level`. -/
theorem stats_scan_ok (language : Option String) :
    ∀ (rows : List RawRow) (t m l : ℕ) (tm : ℚ),
      (∀ r ∈ rows, ReviewStrategy.language_matches language r = true →
        r.mastery_level.isSome) →
      ∃ out, ReviewStrategy.stats_scan language rows t m l tm = .ok out := by
  intro rows
  induction rows with
  | nil => intro t m l tm _; exact ⟨_, rfl⟩
  | cons r rest ih =>
      intro t m l tm h
      rw [ReviewStrategy.stats_scan]
      by_cases hm : ReviewStrategy.language_matches language r = true
      · rw [if_neg (not_not_intro hm)]
        cases hms : r.mastery_level with
        | none =>
            have := h r (by simp) hm
            rw [hms] at this
            simp at this
        | some ms =>
            simp only [hms]
            by_cases hge : (4 : ℚ)/5 ≤ ms
            · rw [if_pos hge]
              exact ih _ _ _ _ (fun x hx hlx => h x (by simp [hx]) hlx)
            · rw [if_neg hge]
              exact ih _ _ _ _ (fun x hx hlx => h x (by simp [hx]) hlx)
      · rw [if_pos hm]
        exact ih _ _ _ _ (fun x hx hlx => h x (by simp [hx]) hlx)

/-- C4 (amended): the due-word scan skips a row whose timestamp fails to
parse — the scan result over the remaining rows is unchanged — and never
raises; the aggregate-stats scan, by contrast, only completes when every
language-matching row has a parseable `mastery_level` (it raises otherwise,
see the counterexample). -/
theorem scan_malformed_row_behavior :
    (∀ (language : String) (now : ℚ) (limit : ℕ) (r : RawRow)
        (l₁ l₂ : List RawRow), r.next_review = none →
        ReviewStrategy.get_words_due_for_review (l₁ ++ r :: l₂) language now limit =
          ReviewStrategy.get_words_due_for_review (l₁ ++ l₂) language now limit) ∧
    (∀ (language : Option String) (rows : List RawRow),
        (∀ r ∈ rows, ReviewStrategy.language_matches language r = true →
          r.mastery_level.isSome) →
        ∃ out, ReviewStrategy.get_mastery_stats rows language = .ok out) := by
  constructor
  · intro language now limit r l₁ l₂ hr
    exact due_scan_skips_malformed language now limit hr l₁ l₂ []
  · intro language rows h
    obtain ⟨⟨t, m, l, tm⟩, hout⟩ := stats_scan_ok language rows 0 0 0 0 h
    refine ⟨{ total_words := t, mastered_words := m, learning_words := l,
              average_mastery :=
                ReviewStrategy.round1 ((if 0 < t then tm / (t : ℚ) else 0) * 100) }, ?_⟩
    rw [ReviewStrategy.get_mastery_stats, hout]

/-- Witness for `scan_malformed_row_behavior`: a malformed row between two
well-formed ones is skipped by the due scan, and a fully parseable store
yields `ok` stats. -/
theorem scan_malformed_row_behavior_witness :
    (ReviewStrategy.get_words_due_for_review
        ([{ word := "good", language := "en", next_review := some 0,
            mastery_level := some 0 }] ++
          ({ word := "bad", language := "en", next_review := none,
             mastery_level := some 0 } : RawRow) ::
          [{ word := "late", language := "en", next_review := some 2,
             mastery_level := some 0 }]) "en" 1 5 =
      ReviewStrategy.get_words_due_for_review
        ([{ word := "good", language := "en", next_review := some 0,
            mastery_level := some 0 }] ++
          [{ word := "late", language := "en", next_review := some 2,
             mastery_level := some 0 }]) "en" 1 5) ∧
    (∃ out, ReviewStrategy.get_mastery_stats
        [{ word := "good", language := "en", next_review := some 0,
           mastery_level := some 1 }] none = .ok out) :=
  ⟨scan_malformed_row_behavior.1 "en" 1 5 _ _ _ rfl,
   scan_malformed_row_behavior.2 none _ (by decide)⟩

/-- C4 counterexample: a store whose single row has an unparseable
`mastery_level` makes `get_mastery_stats` raise — the scan aborts instead of
skipping the row, contradicting the claim for the aggregate-stats scan. -/
theorem mastery_stats_error_on_malformed_row :
    ReviewStrategy.get_mastery_stats
        [{ word := "w", language := "en", next_review := some 0,
           mastery_level := none }] none = .error "ValueError" := rfl

/-- C8 (amended): for every store contents, language, time and limit at least
1, the due-word query returns at most `limit` records, only records of the
requested language whose parsed `next_review` is not after `now`, and returns
them as a subsequence of the file's rows in natural read order (no sort by
due date).  (For `limit = 0` the cap fails, see the counterexample.) -/
theorem list_due_cap_filter_order (rows : List RawRow) (language : String)
    (now : ℚ) (limit : ℕ) (hlimit : 1 ≤ limit) :
    (ReviewStrategy.get_words_due_for_review rows language now limit).length ≤ limit ∧
    (∀ x ∈ ReviewStrategy.get_words_due_for_review rows language now limit,
      x.language = language ∧ ∃ t, x.next_review = some t ∧ t ≤ now) ∧
    (ReviewStrategy.get_words_due_for_review rows language now limit).Sublist rows := by
  refine ⟨?_, ?_, ?_⟩
  · exact due_scan_length_le language now limit rows [] (by simpa using hlimit)
  · intro x hx
    rcases due_scan_mem language now limit rows [] x hx with hxa | hprop
    · simp at hxa
    · exact hprop
  · obtain ⟨s, hs, he⟩ := due_scan_sublist language now limit rows []
    rw [ReviewStrategy.get_words_due_for_review, he]
    simpa using hs

/-- Witness for `list_due_cap_filter_order` on a two-row store with limit 1. -/
theorem list_due_cap_filter_order_witness :
    (ReviewStrategy.get_words_due_for_review
        [{ word := "a", language := "en", next_review := some 0, mastery_level := some 0 },
         { word := "b", language := "en", next_review := some 0, mastery_level := some 0 }]
        "en" 1 1).length ≤ 1 ∧
    (∀ x ∈ ReviewStrategy.get_words_due_for_review
        [{ word := "a", language := "en", next_review := some 0, mastery_level := some 0 },
         { word := "b", language := "en", next_review := some 0, mastery_level := some 0 }]
        "en" 1 1,
      x.language = "en" ∧ ∃ t, x.next_review = some t ∧ t ≤ 1) ∧
    (ReviewStrategy.get_words_due_for_review
        [{ word := "a", language := "en", next_review := some 0, mastery_level := some 0 },
         { word := "b", language := "en", next_review := some 0, mastery_level := some 0 }]
        "en" 1 1).Sublist
      [{ word := "a", language := "en", next_review := some 0, mastery_level := some 0 },
       { word := "b", language := "en", next_review := some 0, mastery_level := some 0 }] :=
  list_due_cap_filter_order _ "en" 1 1 (by decide)

/-- C8 counterexample: with `limit = 0` the scan still returns one record,
because the loop appends before checking `len(words_due) >= limit`. -/
theorem list_due_limit_zero_counterexample :
    (ReviewStrategy.get_words_due_for_review
        [{ word := "a", language := "en", next_review := some 0, mastery_level := some 0 }]
        "en" 1 0).length = 1 := by
  decide

/-! ## Session-composer theorems -/

/-- The deterministic placeholder review question always passes the
validation gate. -/
theorem placeholder_validates (w : String) :
    QuestionGenerator.validate_question (QuestionGenerator.get_default_review_question w) = true := by
  simp [QuestionGenerator.validate_question, QuestionGenerator.get_default_review_question]

/-- Every question of the built-in bank passes the validation gate. -/
theorem bank_validates :
    ∀ q ∈ QuestionGenerator.default_questions,
      QuestionGenerator.validate_question q = true := by
  decide

/-- Membership in the pad-then-truncate stage comes from the padded list or
from the built-in bank. -/
theorem mem_padded_cases {l : List RawQuestion} {count : ℕ} {q : RawQuestion}
    (hq : q ∈ (if l.length < count then
        l ++ QuestionGenerator.default_questions.take (count - l.length)
      else l).take count) :
    q ∈ l ∨ q ∈ QuestionGenerator.default_questions := by
  have hq1 := List.take_subset _ _ hq
  by_cases h : l.length < count
  · rw [if_pos h] at hq1
    rcases List.mem_append.mp hq1 with h1 | h2
    · exact Or.inl h1
    · exact Or.inr (List.take_subset _ _ h2)
  · rw [if_neg h] at hq1
    exact Or.inl hq1

/-- Membership in a conditional append splits along its branches. -/
theorem mem_if_append {α : Type} {q : α} {c : Prop} [Decidable c]
    {l₁ l₂ : List α} (hq : q ∈ if c then l₁ ++ l₂ else l₁) :
    q ∈ l₁ ∨ q ∈ l₂ := by
  by_cases h : c
  · rw [if_pos h] at hq
    exact List.mem_append.mp hq
  · rw [if_neg h] at hq
    exact Or.inl hq

/-- Every question produced by the review-question generator passes the
validation gate: accepted external items were filtered by it, and the
placeholder satisfies it by construction. -/
theorem review_questions_validate (ai : AIBehavior) (cfg : Config) :
    ∀ (words : List RawRow) (q : RawQuestion),
      q ∈ QuestionGenerator.generate_review_questions ai cfg words →
      QuestionGenerator.validate_question q = true := by
  intro words
  induction words with
  | nil =>
      intro q hq
      rw [QuestionGenerator.generate_review_questions] at hq
      simp at hq
  | cons wd rest ih =>
      intro q hq
      rw [QuestionGenerator.generate_review_questions] at hq
      rcases List.mem_append.mp hq with h1 | h2
      · cases hra : QuestionGenerator.review_attempt ai cfg wd with
        | ok qs =>
            rw [hra] at h1
            exact (List.mem_filter.mp h1).2
        | error e =>
            rw [hra] at h1
            have hqe : q = QuestionGenerator.get_default_review_question wd.word := by
              simpa using h1
            subst hqe
            exact placeholder_validates wd.word
      · exact ih q h2

/-- Every question produced by the fresh-question generator passes the
validation gate: external items are filtered, everything else is served from
the bank. -/
theorem gen_new_validates (env : GenEnv) (cfg : Config) (count : ℕ) :
    ∀ q ∈ QuestionGenerator.generate_new_questions env cfg count,
      QuestionGenerator.validate_question q = true := by
  intro q hq
  simp only [QuestionGenerator.generate_new_questions] at hq
  repeat' split at hq
  all_goals
    first
      | exact bank_validates q (List.take_subset _ _ hq)
      | (have hq1 := List.take_subset _ _ hq
         rcases List.mem_append.mp hq1 with hf | hb
         · exact (List.mem_filter.mp hf).2
         · exact bank_validates q (List.take_subset _ _ hb))
      | exact (List.mem_filter.mp (List.take_subset _ _ hq)).2

/-- The fresh-question generator serves only bank questions when the AI
service is unavailable. -/
theorem gen_new_mem_ai_none {env : GenEnv} (h : env.ai_service = none)
    (cfg : Config) (count : ℕ) :
    ∀ q ∈ QuestionGenerator.generate_new_questions env cfg count,
      q ∈ QuestionGenerator.default_questions := by
  intro q hq
  simp only [QuestionGenerator.generate_new_questions, h] at hq
  repeat' split at hq
  all_goals exact List.take_subset _ _ hq

/-- The fresh-question generator serves only bank questions when no article
text is available. -/
theorem gen_new_mem_article_none {env : GenEnv} (h : env.article = none)
    (cfg : Config) (count : ℕ) :
    ∀ q ∈ QuestionGenerator.generate_new_questions env cfg count,
      q ∈ QuestionGenerator.default_questions := by
  intro q hq
  simp only [QuestionGenerator.generate_new_questions, h] at hq
  exact List.take_subset _ _ hq

/-- C6: with a language configured (or defaulted), the composer does not
raise when the external question source is unavailable or when no article
text is available — every such call returns a list, and when the source is
unavailable all of it is drawn from the built-in bank; the fresh-question
path likewise serves the bank when no article text exists.  (Totality of the
embedded `generate` reflects that each fallible call site in the code is
wrapped by its own `try/except` or `None` check.) -/
theorem generate_degrades_to_bank (env : GenEnv) (cfg : Config) (count : ℕ)
    (hsh : ∀ l, List.Perm (env.shuffle l) l) :
    (env.ai_service = none →
      ∀ q ∈ QuestionGenerator.generate env cfg count,
        q ∈ QuestionGenerator.default_questions) ∧
    (env.article = none →
      ∀ q ∈ QuestionGenerator.generate_new_questions env cfg count,
        q ∈ QuestionGenerator.default_questions) := by
  constructor
  · intro hai q hq
    simp only [QuestionGenerator.generate, hai] at hq
    rcases mem_padded_cases hq with h1 | h2
    · have hA := (hsh _).mem_iff.mp h1
      rcases mem_if_append hA with hempty | hnew
      · simp [QuestionGenerator.review_part] at hempty
      · exact gen_new_mem_ai_none hai cfg _ q hnew
    · exact h2
  · intro hart q hq
    exact gen_new_mem_article_none hart cfg count q hq

/-- Witness for `generate_degrades_to_bank`: the single question composed in
the AI-less environment comes from the built-in bank. -/
theorem generate_degrades_to_bank_witness :
    q0 ∈ QuestionGenerator.default_questions :=
  (generate_degrades_to_bank env0 cfg0 1 (fun l => List.Perm.refl l)).1 rfl q0
    (by decide)

/-- The review-question generator yields nothing for an empty due list. -/
theorem generate_review_questions_nil (ai : AIBehavior) (cfg : Config) :
    QuestionGenerator.generate_review_questions ai cfg [] = [] := rfl

/-- Unfolding the review-question generator at its head word: the head's
block (validated items, or one placeholder on failure) is followed by the
blocks of the remaining words. -/
theorem generate_review_questions_cons (ai : AIBehavior) (cfg : Config)
    (wd : RawRow) (rest : List RawRow) :
    QuestionGenerator.generate_review_questions ai cfg (wd :: rest) =
      (match QuestionGenerator.review_attempt ai cfg wd with
       | .ok qs => qs.filter QuestionGenerator.validate_question
       | .error _ => [QuestionGenerator.get_default_review_question wd.word]) ++
        QuestionGenerator.generate_review_questions ai cfg rest := rfl

/-- C5 (amended): when the external source is available, a due word whose
per-word generation attempt raises contributes exactly one deterministic
placeholder tagged with that word, at that word's position in the review
list, regardless of whether the attempts for the other due words succeed or
fail — so such a word always contributes at least one question. -/
theorem review_placeholder_per_word (ai : AIBehavior) (cfg : Config)
    (l₁ l₂ : List RawRow) (wd : RawRow)
    (hfail : ∃ e, QuestionGenerator.review_attempt ai cfg wd = .error e) :
    QuestionGenerator.generate_review_questions ai cfg (l₁ ++ wd :: l₂) =
      QuestionGenerator.generate_review_questions ai cfg l₁ ++
        QuestionGenerator.get_default_review_question wd.word ::
          QuestionGenerator.generate_review_questions ai cfg l₂ ∧
    QuestionGenerator.get_default_review_question wd.word ∈
      QuestionGenerator.generate_review_questions ai cfg (l₁ ++ wd :: l₂) := by
  obtain ⟨e, he⟩ := hfail
  have hdec : QuestionGenerator.generate_review_questions ai cfg (l₁ ++ wd :: l₂) =
      QuestionGenerator.generate_review_questions ai cfg l₁ ++
        QuestionGenerator.get_default_review_question wd.word ::
          QuestionGenerator.generate_review_questions ai cfg l₂ := by
    induction l₁ with
    | nil =>
        simp only [List.nil_append]
        rw [generate_review_questions_cons, he]
        simp [generate_review_questions_nil]
    | cons a l₁' ih =>
        simp only [List.cons_append]
        rw [generate_review_questions_cons, ih]
        conv_rhs => rw [generate_review_questions_cons]
        simp [List.append_assoc]
  refine ⟨hdec, ?_⟩
  rw [hdec]
  simp

/-- Witness for `review_placeholder_per_word` on a mixed session: the attempt
for "dog" succeeds, the attempt for "cat" raises, and "cat" still gets
exactly its one placeholder, in position. -/
theorem review_placeholder_per_word_witness :
    QuestionGenerator.generate_review_questions mixed_ai cfg0 ([rowDog] ++ rowCat :: []) =
      QuestionGenerator.generate_review_questions mixed_ai cfg0 [rowDog] ++
        QuestionGenerator.get_default_review_question rowCat.word ::
          QuestionGenerator.generate_review_questions mixed_ai cfg0 [] ∧
    QuestionGenerator.get_default_review_question rowCat.word ∈
      QuestionGenerator.generate_review_questions mixed_ai cfg0 ([rowDog] ++ rowCat :: []) :=
  review_placeholder_per_word mixed_ai cfg0 [rowDog] [] rowCat ⟨"timeout", rfl⟩

/-- C5 counterexample: with one due word ("cat") and the external source
unavailable, the composed session contains no question tagged "cat" — the
placeholder substitution never runs, because review generation is skipped
entirely when `ai_service is None`, so the due word contributes zero
questions. -/
theorem due_word_dropped_when_ai_unavailable :
    (ReviewStrategy.get_words_due_for_review envCat.store_rows "英语" envCat.now 5).length
        = 1 ∧
      (QuestionGenerator.generate envCat cfg0 15).all
        (fun q => q.word != some "cat") = true := by
  constructor
  · rfl
  · decide

/-- The built-in bank holds 15 questions. -/
theorem bank_length : QuestionGenerator.default_questions.length = 15 := rfl

/-- Truncating the bank returns `min count 15` questions. -/
theorem take_default_length (c : ℕ) :
    (QuestionGenerator.default_questions.take c).length = min c 15 := by
  rw [List.length_take, bank_length]

/-- Padding from the bank and truncating yields exactly `count` questions
whenever the bank can cover the deficit. -/
theorem pad_take_length (l : List RawQuestion) (count : ℕ)
    (h : count ≤ l.length + 15) :
    ((if l.length < count then
        l ++ QuestionGenerator.default_questions.take (count - l.length)
      else l).take count).length = count := by
  by_cases hl : l.length < count
  · rw [if_pos hl, List.length_take, List.length_append, take_default_length]
    omega
  · rw [if_neg hl, List.length_take]
    omega

/-- The fresh-question generator returns between `min count 15` and `count`
questions: every fallback path serves `min count 15` bank items, and the
validated external batch is padded up to `count` when short. -/
theorem gen_new_length_bounds (env : GenEnv) (cfg : Config) (count : ℕ) :
    min count 15 ≤ (QuestionGenerator.generate_new_questions env cfg count).length ∧
      (QuestionGenerator.generate_new_questions env cfg count).length ≤ count := by
  simp only [QuestionGenerator.generate_new_questions]
  repeat' split
  all_goals constructor
  all_goals simp only [List.length_take, List.length_append, bank_length]
  all_goals omega

/-- After topping up with fresh questions, the combined list is within bank
reach of `count`, provided `count ≤ 30`. -/
theorem step3_length (env : GenEnv) (cfg : Config) (count : ℕ)
    (l : List RawQuestion) (hcount : count ≤ 30) :
    count ≤ (if 0 < count - l.length then
        l ++ QuestionGenerator.generate_new_questions env cfg (count - l.length)
      else l).length + 15 := by
  by_cases h : 0 < count - l.length
  · rw [if_pos h, List.length_append]
    have hb := (gen_new_length_bounds env cfg (count - l.length)).1
    omega
  · rw [if_neg h]
    omega

/-- C7 (amended): for every environment and every requested count up to 30
(twice the built-in bank; the default session size is 15), `generate`
returns exactly `count` questions — including when the external source
yields zero valid items and the store has zero due words, the bank then
supplying the questions.  (Above 30 the bank runs dry, see the
counterexample.) -/
theorem generate_length_exact (env : GenEnv) (cfg : Config) (count : ℕ)
    (hsh : ∀ l, List.Perm (env.shuffle l) l) (hcount : count ≤ 30) :
    (QuestionGenerator.generate env cfg count).length = count := by
  simp only [QuestionGenerator.generate]
  refine pad_take_length _ count ?_
  rw [(hsh _).length_eq]
  exact step3_length env cfg count _ hcount

/-- Witness for `generate_length_exact`: the default session size, 15, on the
bank-only environment. -/
theorem generate_length_exact_witness :
    (QuestionGenerator.generate env0 cfg0 15).length = 15 :=
  generate_length_exact env0 cfg0 15 (fun l => List.Perm.refl l) (by decide)

/-- C7 counterexample: at count 31 the bank (15 items, drawn at most twice)
cannot fill the session — `generate` returns only 30 questions, not 31. -/
theorem generate_length_not_exact_at_31 :
    (QuestionGenerator.generate env0 cfg0 31).length = 30 := by
  decide

/-- A validated question of type `multiple_choice` carries exactly 4 options
including its answer. -/
theorem validate_mc_shape {q : RawQuestion}
    (h : QuestionGenerator.validate_question q = true)
    (hmc : q.type = some "multiple_choice") :
    ∃ opts a, q.options = some opts ∧ opts.length = 4 ∧
      q.answer = some a ∧ a ∈ opts := by
  unfold QuestionGenerator.validate_question at h
  cases hopt : q.options with
  | none => rw [hmc, hopt] at h; simp at h
  | some opts =>
      cases hans : q.answer with
      | none => rw [hmc, hans] at h; simp at h
      | some a =>
          rw [hmc, hopt, hans] at h
          simp at h
          obtain ⟨⟨-, -⟩, hlen, hmem⟩ := h
          exact ⟨opts, a, rfl, hlen, rfl, hmem⟩

/-- The guarded review step only emits questions passing the validation
gate. -/
theorem review_part_validates (aiopt : Option AIBehavior) (cfg : Config)
    (words : List RawRow) :
    ∀ q ∈ QuestionGenerator.review_part aiopt cfg words,
      QuestionGenerator.validate_question q = true := by
  intro q hq
  cases aiopt with
  | none => simp [QuestionGenerator.review_part] at hq
  | some ai =>
      rw [QuestionGenerator.review_part] at hq
      split at hq
      · exact review_questions_validate ai cfg words q hq
      · simp at hq

/-- C10: every question in a composed session passes the validation gate —
externally generated items failing it were discarded, never repaired, while
placeholders and bank items satisfy it by construction — and consequently
every `multiple_choice` question has exactly 4 options with its answer among
them. -/
theorem composed_mc_questions_wellformed (env : GenEnv) (cfg : Config)
    (count : ℕ) (hsh : ∀ l, List.Perm (env.shuffle l) l) :
    ∀ q ∈ QuestionGenerator.generate env cfg count,
      QuestionGenerator.validate_question q = true ∧
      (q.type = some "multiple_choice" →
        ∃ opts a, q.options = some opts ∧ opts.length = 4 ∧
          q.answer = some a ∧ a ∈ opts) := by
  intro q hq
  have hval : QuestionGenerator.validate_question q = true := by
    simp only [QuestionGenerator.generate] at hq
    rcases mem_padded_cases hq with h1 | h2
    · have hA := (hsh _).mem_iff.mp h1
      rcases mem_if_append hA with hall1 | hnew
      · exact review_part_validates env.ai_service cfg _ q hall1
      · exact gen_new_validates env cfg _ q hnew
    · exact bank_validates q h2
  exact ⟨hval, fun hmc => validate_mc_shape hval hmc⟩

/-- Witness for `composed_mc_questions_wellformed`: the single question of a
bank-only session of size 1. -/
theorem composed_mc_questions_wellformed_witness :
    QuestionGenerator.validate_question q0 = true ∧
      (q0.type = some "multiple_choice" →
        ∃ opts a, q0.options = some opts ∧ opts.length = 4 ∧
          q0.answer = some a ∧ a ∈ opts) :=
  composed_mc_questions_wellformed env0 cfg0 1 (fun l => List.Perm.refl l) q0
    (by decide)

end MiniDuolingo
